import Mathlib

/-!
Verification development for the `acray` acoustic ray tracer.

Shallow embedding of the repository's data model and algorithms over the
real numbers (the source computes with machine floats; here a float value
is a real number, and the intersection kernel's machine-epsilon windows are
kept as the explicit constant `EPSILON`).

The repository's files are several drafts of the same program.  The engine
(`src/scene.rs`) and the kernel tests (`src/ray/tests.rs`) require a ray
type carrying `t_offset` and a hit record carrying a `unit_normal` vector;
the kernel implementation matching them is not among the files (the
`src/ray.rs` present is an earlier draft whose `Ray` has no `t_offset` and
whose `Hit` literal lacks the `unit_normal` field declared by
`src/intersect.rs`).  Where a definition below models that missing final
kernel its doc comment starts with `Modelled from the spec:`; every such
definition is checked against the concrete expectations of
`src/ray/tests.rs` further down.  Everything else is translated directly
from the files present.
-/

/-- Three-component vector of `src/vec3.rs` (`pub struct Vec3(f32, f32, f32)`),
with real components. -/
structure Vec3 where
  x : ℝ
  y : ℝ
  z : ℝ

noncomputable instance : Add Vec3 :=
  ⟨fun a b => ⟨a.x + b.x, a.y + b.y, a.z + b.z⟩⟩

noncomputable instance : Sub Vec3 :=
  ⟨fun a b => ⟨a.x - b.x, a.y - b.y, a.z - b.z⟩⟩

noncomputable instance : Neg Vec3 :=
  ⟨fun a => ⟨-a.x, -a.y, -a.z⟩⟩

/-- Scalar multiplication (`impl Mul<Vec3> for f32` / `impl Mul<f32> for Vec3`,
both orders multiply componentwise). -/
noncomputable instance : SMul ℝ Vec3 :=
  ⟨fun c a => ⟨c * a.x, c * a.y, c * a.z⟩⟩

/-- Componentwise scalar division (`impl Div<f32> for Vec3`). -/
noncomputable instance : HDiv Vec3 ℝ Vec3 :=
  ⟨fun a c => ⟨a.x / c, a.y / c, a.z / c⟩⟩

/-- Dot product of `src/vec3.rs`. -/
noncomputable def Vec3.dot (a b : Vec3) : ℝ :=
  a.x * b.x + a.y * b.y + a.z * b.z

/-- Cross product of `src/vec3.rs`. -/
noncomputable def Vec3.cross (a b : Vec3) : Vec3 :=
  ⟨a.y * b.z - a.z * b.y, a.z * b.x - a.x * b.z, a.x * b.y - a.y * b.x⟩

/-- Euclidean magnitude of `src/vec3.rs` (`mag`). -/
noncomputable def Vec3.mag (a : Vec3) : ℝ :=
  Real.sqrt (a.x ^ 2 + a.y ^ 2 + a.z ^ 2)

/-- Normalisation of `src/vec3.rs` (`unit`, `self / self.mag()`). -/
noncomputable def Vec3.unit (a : Vec3) : Vec3 :=
  a / a.mag

theorem Vec3.smul_def (c : ℝ) (a : Vec3) : c • a = ⟨c * a.x, c * a.y, c * a.z⟩ :=
  rfl

theorem Vec3.add_def (a b : Vec3) : a + b = ⟨a.x + b.x, a.y + b.y, a.z + b.z⟩ :=
  rfl

theorem Vec3.sub_def (a b : Vec3) : a - b = ⟨a.x - b.x, a.y - b.y, a.z - b.z⟩ :=
  rfl

theorem Vec3.neg_def (a : Vec3) : -a = ⟨-a.x, -a.y, -a.z⟩ :=
  rfl

theorem Vec3.div_def (a : Vec3) (c : ℝ) : a / c = ⟨a.x / c, a.y / c, a.z / c⟩ :=
  rfl

/-- The machine-epsilon window of the kernel's comparisons.  The final draft
computes in `f64` (`src/ray/tests.rs`), whose machine epsilon is `2⁻⁵²`. -/
noncomputable def EPSILON : ℝ := 1 / 2 ^ 52

/-- Hit record of `src/intersect.rs`, with the `unit_normal` field as the final
draft carries it (a plain vector: `src/ray/tests.rs` builds
`Hit { time, point, unit_normal: Vec3(..) }`, and `src/scene.rs` dots it
directly). -/
structure Hit where
  time : ℝ
  point : Vec3
  unit_normal : Vec3

/-- Ray of the final draft: `src/ray/tests.rs` and `src/scene.rs` construct
`Ray { origin, direction, t_offset }`.  `t_offset` is the global time at which
this ray segment begins. -/
structure Ray where
  origin : Vec3
  direction : Vec3
  t_offset : ℝ

/-- `Ray::at`: the point at local parameter `t` along the ray
(`origin + t * direction`, `src/ray.rs`). -/
noncomputable def Ray.at (r : Ray) (t : ℝ) : Vec3 :=
  r.origin + t • r.direction

/-- Triangle of `src/triangle.rs` (three vertices), at `V = Vec3`. -/
structure Triangle where
  a : Vec3
  b : Vec3
  c : Vec3

/-- Sphere of `src/sphere.rs`. -/
structure Sphere where
  origin : Vec3
  radius : ℝ

/-- Local Möller–Trumbore parameter `t = f * (ac · qvec)` of the ray–triangle
kernel, named so the theorems can speak about "the local ray parameter". -/
noncomputable def triLocalT (ray : Ray) (tri : Triangle) : ℝ :=
  let ab := tri.b - tri.a
  let ac := tri.c - tri.a
  let norm := ray.direction.cross ac
  let angle := ab.dot norm
  let f := 1 / angle
  let offset := ray.origin - tri.a
  let qvec := offset.cross ab
  f * (ac.dot qvec)

/-- Modelled from the spec: the final ray–triangle intersection kernel
(`Intersect<Triangle<Vec3>> for Ray`), whose implementation is not among the
files — only its tests (`src/ray/tests.rs`) and its caller (`src/scene.rs`)
are.  The algorithm follows spec §4.2 (Möller–Trumbore) and the earlier draft
kernels in `src/ray.rs`, `src/lib.rs` and `src/main.rs`; the reported time is
the local parameter plus the ray's `t_offset`, and the outward normal is
`unit(ac × ab)`, both as the spec states and as `src/ray/tests.rs` expects. -/
noncomputable def intersectTriangle (ray : Ray) (tri : Triangle) : Option Hit :=
  let ab := tri.b - tri.a
  let ac := tri.c - tri.a
  let norm := ray.direction.cross ac
  let angle := ab.dot norm
  if -EPSILON < angle ∧ angle < EPSILON then
    none
  else
    let f := 1 / angle
    let offset := ray.origin - tri.a
    let u := f * (offset.dot norm)
    if u < 0 ∨ u > 1 then
      none
    else
      let qvec := offset.cross ab
      let v := f * (ray.direction.dot qvec)
      if v < 0 ∨ u + v > 1 then
        none
      else
        let t := f * (ac.dot qvec)
        some { time := t + ray.t_offset, point := ray.at t,
               unit_normal := (ac.cross ab).unit }

/-- `tca = oc · direction` of the ray–sphere kernel. -/
noncomputable def sphereTca (ray : Ray) (s : Sphere) : ℝ :=
  (s.origin - ray.origin).dot ray.direction

/-- `d2 = oc·oc - tca²` of the ray–sphere kernel. -/
noncomputable def sphereD2 (ray : Ray) (s : Sphere) : ℝ :=
  let oc := s.origin - ray.origin
  oc.dot oc - sphereTca ray s * sphereTca ray s

/-- `thc = sqrt(r² - d2)` of the ray–sphere kernel. -/
noncomputable def sphereThc (ray : Ray) (s : Sphere) : ℝ :=
  Real.sqrt (s.radius ^ 2 - sphereD2 ray s)

/-- Modelled from the spec: the final ray–sphere intersection kernel
(`Intersect<Sphere> for Ray`), whose implementation is not among the files —
only its tests (`src/ray/tests.rs`) and its caller (`src/scene.rs`) are.  The
algorithm follows spec §4.2 and the draft kernel in `src/ray.rs`: miss when
`d2 > r²`; one tangential hit at `tca` when `thc` lies within the epsilon
window; otherwise two hits at `tca ∓ thc`.  Reported times add the ray's
`t_offset`; each normal is `unit(point − sphere.origin)` with the far hit's
normal negated, as the spec states and as `src/ray/tests.rs` expects. -/
noncomputable def intersectSphere (ray : Ray) (s : Sphere) : Option (List Hit) :=
  let tca := sphereTca ray s
  let d2 := sphereD2 ray s
  let radius2 := s.radius ^ 2
  if radius2 < d2 then
    none
  else
    let thc := sphereThc ray s
    if -EPSILON ≤ thc ∧ thc ≤ EPSILON then
      some [{ time := tca + ray.t_offset, point := ray.at tca,
              unit_normal := (ray.at tca - s.origin).unit }]
    else
      let t0 := tca - thc
      let t1 := tca + thc
      some [{ time := t0 + ray.t_offset, point := ray.at t0,
              unit_normal := (ray.at t0 - s.origin).unit },
            { time := t1 + ray.t_offset, point := ray.at t1,
              unit_normal := -((ray.at t1 - s.origin).unit) }]

/-- `Ord for Hit` of `src/intersect.rs`:
`self.time.partial_cmp(&other.time).unwrap_or(Ordering::Equal)`.  Over the
reals every comparison is ordered, so the fallback never fires; `nanUnwrapEq`
below models the fallback itself on a float value that may be NaN. -/
noncomputable def hitCmp (a b : Hit) : Ordering :=
  compare a.time b.time

/-- A float comparison result: `none` models the unordered (NaN) case of
`f64::partial_cmp`, `some` the ordered one. -/
noncomputable def fpcmp (a b : Option ℝ) : Option Ordering :=
  match a, b with
  | some x, some y => some (compare x y)
  | _, _ => none

/-- `partial_cmp(..).unwrap_or(Ordering::Equal)`: the NaN-safe fallback of
`Ord for Hit` in `src/intersect.rs`, on possibly-NaN times. -/
noncomputable def nanUnwrapEq (a b : Option ℝ) : Ordering :=
  (fpcmp a b).getD Ordering.eq

/-- Fuel-indexed model of `PartialOrd for Hit` in `src/intersect.rs`, whose
body is `self.partial_cmp(other)` — an unconditional call to itself.  Each
unit of fuel is one unfolding of that call; `none` means no value was produced
within the given fuel. -/
def hitPcmpFuel : ℕ → Hit → Hit → Option (Option Ordering)
  | 0, _, _ => none
  | n + 1, a, b => hitPcmpFuel n a b

/-- `Interaction` of `src/scene.rs`. -/
inductive Interaction where
  | receiverHit (hit : Hit) (intensity : ℝ)
  | objectHit (hit : Hit) (reflectance : ℝ)

/-- `Ord for Interaction` of `src/scene.rs`: all four kind combinations defer
to the wrapped hits' `cmp`. -/
noncomputable def interactionCmp (a b : Interaction) : Ordering :=
  match a, b with
  | .objectHit ha _, .objectHit hb _ => hitCmp ha hb
  | .receiverHit ha _, .receiverHit hb _ => hitCmp ha hb
  | .objectHit ha _, .receiverHit hb _ => hitCmp ha hb
  | .receiverHit ha _, .objectHit hb _ => hitCmp ha hb

/-- The wrapped hit of an interaction. -/
def interactionHit : Interaction → Hit
  | .receiverHit h _ => h
  | .objectHit h _ => h

/-- The wrapped hit's time, as the filter in `Scene::simulate` reads it
(both match arms return `hit.time`). -/
def interactionTime (i : Interaction) : ℝ :=
  (interactionHit i).time

/-- `Object` of `src/scene.rs`. -/
inductive Object where
  | reflector (geometry : List Triangle) (reflectance : ℝ)
  | receiver (geometry : Sphere)

/-- `Emitter` of `src/scene.rs`. -/
structure Emitter where
  origin : Vec3
  sounds_per_tick : ℕ

/-- `Sound` of `src/scene.rs`: a live ray and its residual intensity. -/
structure Sound where
  ray : Ray
  intensity : ℝ

/-- `Scene` of `src/scene.rs`.  (The struct's third field `sounds` is never
read by `simulate`, which shadows it with a local; it is omitted here.) -/
structure Scene where
  objects : List Object
  emitters : List Emitter

/-- Error of the triangle-fan builder: `points[0]` / `points[1]` in
`src/scene.rs` panic with an index-out-of-bounds when the list is shorter
than 2. -/
inductive BuildErr where
  | indexOutOfBounds

/-- The fan body of `build_geometry_from_triangle_fan`: triangles
`(origin, prev, point)` with `prev` advancing over the remaining points. -/
def fanFrom (origin prev : Vec3) : List Vec3 → List Triangle
  | [] => []
  | p :: ps => ⟨origin, prev, p⟩ :: fanFrom origin p ps

/-- `build_geometry_from_triangle_fan` of `src/scene.rs`: reads `points[0]`
and `points[1]` unconditionally (a panic, modelled as the error, when fewer
than two points are given), then fans over `points.iter().skip(2)` — which for
exactly two points is empty, so an empty triangle list is returned without
any error. -/
def buildGeometryFromTriangleFan : List Vec3 → Except BuildErr (List Triangle)
  | p0 :: p1 :: rest => .ok (fanFrom p0 p1 rest)
  | _ => .error .indexOutOfBounds

/-- First minimal element of a list under a comparator: `b` is replaced only
by a strictly smaller element.  This is the least element of the `BTreeSet`
the list would be collected into: inserting an element `Ord`-equal to a
present one keeps the present (earlier) one, so the set's least element is the
first minimal element in insertion order. -/
def pickMinFrom (c : Interaction → Interaction → Ordering) :
    Interaction → List Interaction → Interaction
  | b, [] => b
  | b, x :: xs => pickMinFrom c (if c x b = .lt then x else b) xs

/-- `set.iter().take(1).next()` after collecting a list into a `BTreeSet`:
the first minimal element, or `none` for the empty list. -/
def minByFirst (c : Interaction → Interaction → Ordering) :
    List Interaction → Option Interaction
  | [] => none
  | x :: xs => some (pickMinFrom c x xs)

/-- The distinct representatives a `BTreeSet` collected from the list holds:
later elements comparing `Equal` to an earlier one are dropped (an insert of
an `Ord`-equal element keeps the present one). -/
def dedupKeepFirst (c : Interaction → Interaction → Ordering) :
    List Interaction → List Interaction
  | [] => []
  | x :: xs =>
    x :: dedupKeepFirst c (xs.filter fun y => !(decide (c y x = .eq)))
termination_by l => l.length
decreasing_by
  simp only [List.length_cons]
  exact Nat.lt_succ_of_le (List.length_filter_le _ _)

/-- The interactions one object contributes for a sound's ray, from
`Scene::simulate`: a Reflector yields an `ObjectHit` per intersected triangle
of its geometry; a Receiver yields a `ReceiverHit` per sphere hit
(`unwrap_or(vec![])` on a miss), carrying the sound's current intensity. -/
noncomputable def objectInteractions (snd : Sound) : Object → List Interaction
  | .reflector geometry reflectance =>
    geometry.filterMap fun tri =>
      (intersectTriangle snd.ray tri).map fun hit => .objectHit hit reflectance
  | .receiver geometry =>
    ((intersectSphere snd.ray geometry).getD []).map fun hit =>
      .receiverHit hit snd.intensity

/-- Per object, `Scene::simulate` collects that object's interactions into a
`BTreeSet` and takes only its first (least) element. -/
noncomputable def perObjectPick (snd : Sound) (o : Object) : Option Interaction :=
  minByFirst interactionCmp (objectInteractions snd o)

/-- The per-object picks in object order (`.map(..).flatten()` over the
objects), the insertion sequence of the outer `BTreeSet` `hits`. -/
noncomputable def candidatePicks (objects : List Object) (snd : Sound) :
    List Interaction :=
  match objects with
  | [] => []
  | o :: os =>
    match perObjectPick snd o with
    | some i => i :: candidatePicks os snd
    | none => candidatePicks os snd

/-- `earliest_hit` of `Scene::simulate`: iterate the outer `BTreeSet` in
ascending order, keep interactions whose hit time strictly exceeds the ray's
`t_offset`, and take the first — i.e. the least surviving set element. -/
noncomputable def selectedInteraction (objects : List Object) (snd : Sound) :
    Option Interaction :=
  minByFirst interactionCmp
    ((dedupKeepFirst interactionCmp (candidatePicks objects snd)).filter
      fun i => decide (snd.ray.t_offset < interactionTime i))

/-- The full candidate set the spec describes (claim C2): one interaction per
intersected triangle of every Reflector and per sphere hit of every Receiver,
in object order, before any filtering or per-object selection.  This is the
claim-side definition, to be compared with `selectedInteraction`. -/
noncomputable def specCandidates (objects : List Object) (snd : Sound) :
    List Interaction :=
  match objects with
  | [] => []
  | o :: os => objectInteractions snd o ++ specCandidates os snd

/-- The selection the spec describes (claim C2): filter the full candidate set
by hit time strictly above `t_offset`, then take the earliest.  Claim-side
definition. -/
noncomputable def specSelected (objects : List Object) (snd : Sound) :
    Option Interaction :=
  minByFirst interactionCmp
    ((specCandidates objects snd).filter
      fun i => decide (snd.ray.t_offset < interactionTime i))

/-- The audibility cutoff of `Scene::simulate`
(`if new_amplitude >= 0.000_000_000_001`). -/
noncomputable def THRESHOLD : ℝ := 1 / 10 ^ 12

/-- `const SPEED_OF_SOUND: f32 = 344_f32` of `Scene::simulate`. -/
noncomputable def SPEED_OF_SOUND : ℝ := 344

/-- The replacement ray built on an `ObjectHit` in `Scene::simulate`:
`direction - 2*(direction·normal)*normal`, origin at the hit point, and the
hit's global time as the new `t_offset`. -/
noncomputable def reflectRay (r : Ray) (hit : Hit) : Ray :=
  { direction :=
      r.direction - (2 * r.direction.dot hit.unit_normal) • hit.unit_normal,
    origin := hit.point,
    t_offset := hit.time }

/-- What one simulation round does to one sound. -/
inductive Outcome where
  | decayed
  | captured (hit : Hit) (intensity : ℝ)
  | reflected (snd : Sound)

/-- One sound's transition in a round of `Scene::simulate`: no surviving
candidate means the sound is dropped; an `ObjectHit` reflects the ray and
scales the intensity by the reflectance, dropping the sound when the new
amplitude falls below the audibility cutoff; a `ReceiverHit` records the
capture and removes the sound. -/
noncomputable def soundOutcome (objects : List Object) (snd : Sound) : Outcome :=
  match selectedInteraction objects snd with
  | none => .decayed
  | some (.objectHit hit reflectance) =>
    let newAmplitude := snd.intensity * reflectance
    if THRESHOLD ≤ newAmplitude then
      .reflected ⟨reflectRay snd.ray hit, newAmplitude⟩
    else
      .decayed
  | some (.receiverHit hit intensity) => .captured hit intensity

/-- The surviving sounds of one round, in order (`.map(..).filter_map(x)`). -/
noncomputable def stepSounds (objects : List Object) : List Sound → List Sound
  | [] => []
  | s :: ss =>
    match soundOutcome objects s with
    | .reflected s' => s' :: stepSounds objects ss
    | _ => stepSounds objects ss

/-- The `(hit, intensity)` pairs pushed onto `receiver_hits` during one round,
in order. -/
noncomputable def stepHits (objects : List Object) : List Sound → List (Hit × ℝ)
  | [] => []
  | s :: ss =>
    match soundOutcome objects s with
    | .captured h i => (h, i) :: stepHits objects ss
    | _ => stepHits objects ss

/-- The `loop` of `Scene::simulate`, fuel-indexed: the loop body has no bound
of its own (it exits only when the population is empty), so `none` records
that the given number of rounds did not suffice. -/
noncomputable def runRounds (objects : List Object) :
    ℕ → List Sound → List (Hit × ℝ) → Option (List (Hit × ℝ))
  | _, [], acc => some acc
  | 0, _ :: _, _ => none
  | fuel + 1, s :: ss, acc =>
    runRounds objects fuel (stepSounds objects (s :: ss))
      (acc ++ stepHits objects (s :: ss))

/-- The ray population after `k` rounds (stepping an empty population leaves
it empty). -/
noncomputable def popAfter (objects : List Object) : ℕ → List Sound → List Sound
  | 0, ss => ss
  | k + 1, ss => popAfter objects k (stepSounds objects ss)

/-- One emitted sound of `Scene::simulate`: three fresh samples in `[0, 1)`
become the components of `direction`, which is then scaled by
`SPEED_OF_SOUND / direction.mag()`; the ray starts at the emitter's origin at
time zero with intensity `1.0`.  (In the source a zero sample vector makes
this scale `inf` and the direction NaN; here division by zero yields the zero
vector — in both models the magnitude is not 344.) -/
noncomputable def emitSound (origin : Vec3) (u1 u2 u3 : ℝ) : Sound :=
  let direction : Vec3 := ⟨u1, u2, u3⟩
  let direction := (SPEED_OF_SOUND / direction.mag) • direction
  { ray := { origin := origin, direction := direction, t_offset := 0 },
    intensity := 1 }

/-- The `sounds_per_tick` sounds of one emitter, consuming three samples of
the stream per sound starting at index `start`. -/
noncomputable def emitFrom (e : Emitter) (rng : ℕ → ℝ) (start : ℕ) : List Sound :=
  (List.range e.sounds_per_tick).map fun j =>
    emitSound e.origin (rng (start + 3 * j)) (rng (start + 3 * j + 1))
      (rng (start + 3 * j + 2))

/-- All emitters' sounds in order (`.map(..).flatten().collect()`), threading
the sample stream left to right as successive `rng.gen()` calls do. -/
noncomputable def emitAll : List Emitter → (ℕ → ℝ) → ℕ → List Sound
  | [], _, _ => []
  | e :: es, rng, start =>
    emitFrom e rng start ++ emitAll es rng (start + 3 * e.sounds_per_tick)

/-- `Scene::simulate`, fuel-indexed: emit, then loop rounds until the
population is empty, returning the recorded receiver hits.  (The source's
local variable `time`, overwritten on each reflection, is never read and is
omitted here.) -/
noncomputable def simulate (fuel : ℕ) (scene : Scene) (rng : ℕ → ℝ) :
    Option (List (Hit × ℝ)) :=
  runRounds scene.objects fuel (emitAll scene.emitters rng 0) []

/-- Every reflector of the object list has the given reflectance. -/
def allRefl (objects : List Object) (r : ℝ) : Prop :=
  ∀ g ρ, Object.reflector g ρ ∈ objects → ρ = r

/-- One wall as the triangle-fan builder produces it from four corners. -/
def wallFan (c0 c1 c2 c3 : Vec3) : List Triangle :=
  fanFrom c0 c1 [c2, c3]

/-- The closed-box scene of spec §8: six reflective walls (the faces of the
cube `[-5, 5]³`, each a two-triangle fan) with reflectance `0.8`, one
receiver sphere at the centre, and one emitter inside. -/
noncomputable def boxScene (n : ℕ) : Scene :=
  { objects :=
      [ .reflector (wallFan ⟨-5, -5, -5⟩ ⟨5, -5, -5⟩ ⟨5, 5, -5⟩ ⟨-5, 5, -5⟩) (4 / 5),
        .reflector (wallFan ⟨-5, -5, 5⟩ ⟨5, -5, 5⟩ ⟨5, 5, 5⟩ ⟨-5, 5, 5⟩) (4 / 5),
        .reflector (wallFan ⟨-5, -5, -5⟩ ⟨-5, 5, -5⟩ ⟨-5, 5, 5⟩ ⟨-5, -5, 5⟩) (4 / 5),
        .reflector (wallFan ⟨5, -5, -5⟩ ⟨5, 5, -5⟩ ⟨5, 5, 5⟩ ⟨5, -5, 5⟩) (4 / 5),
        .reflector (wallFan ⟨-5, -5, -5⟩ ⟨5, -5, -5⟩ ⟨5, -5, 5⟩ ⟨-5, -5, 5⟩) (4 / 5),
        .reflector (wallFan ⟨-5, 5, -5⟩ ⟨5, 5, -5⟩ ⟨5, 5, 5⟩ ⟨-5, 5, 5⟩) (4 / 5),
        .receiver ⟨⟨0, 0, 0⟩, 1⟩ ],
    emitters := [⟨⟨2, 0, 0⟩, n⟩] }

theorem interactionTime_objectHit (h : Hit) (ρ : ℝ) :
    interactionTime (.objectHit h ρ) = h.time :=
  rfl

theorem interactionTime_receiverHit (h : Hit) (i : ℝ) :
    interactionTime (.receiverHit h i) = h.time :=
  rfl

theorem interactionCmp_eq_compare (a b : Interaction) :
    interactionCmp a b = compare (interactionTime a) (interactionTime b) := by
  cases a <;> cases b <;> rfl

theorem interactionCmp_lt_iff (a b : Interaction) :
    interactionCmp a b = .lt ↔ interactionTime a < interactionTime b := by
  rw [interactionCmp_eq_compare]
  exact compare_lt_iff_lt

theorem interactionCmp_eq_iff (a b : Interaction) :
    interactionCmp a b = .eq ↔ interactionTime a = interactionTime b := by
  rw [interactionCmp_eq_compare]
  exact compare_eq_iff_eq

theorem pickMinFrom_mem (c : Interaction → Interaction → Ordering)
    (b : Interaction) (xs : List Interaction) :
    pickMinFrom c b xs = b ∨ pickMinFrom c b xs ∈ xs := by
  induction xs generalizing b with
  | nil => exact Or.inl rfl
  | cons x xs ih =>
    simp only [pickMinFrom]
    rcases ih (if c x b = .lt then x else b) with h | h
    · rw [h]
      split
      · exact Or.inr (List.mem_cons_self x xs)
      · exact Or.inl rfl
    · exact Or.inr (List.mem_cons_of_mem x h)

theorem pickMinFrom_le (b : Interaction) (xs : List Interaction) :
    interactionTime (pickMinFrom interactionCmp b xs) ≤ interactionTime b ∧
      ∀ y ∈ xs, interactionTime (pickMinFrom interactionCmp b xs) ≤
        interactionTime y := by
  induction xs generalizing b with
  | nil => exact ⟨le_refl _, fun y hy => absurd hy (List.not_mem_nil y)⟩
  | cons x xs ih =>
    simp only [pickMinFrom]
    obtain ⟨h1, h2⟩ := ih (if interactionCmp x b = .lt then x else b)
    have hxb : interactionTime (if interactionCmp x b = .lt then x else b) ≤
        interactionTime b ∧
        interactionTime (if interactionCmp x b = .lt then x else b) ≤
        interactionTime x := by
      split
      · next hlt => exact ⟨le_of_lt ((interactionCmp_lt_iff x b).mp hlt), le_refl _⟩
      · next hge =>
        refine ⟨le_refl _, ?_⟩
        rcases lt_or_ge (interactionTime x) (interactionTime b) with hl | hg
        · exact absurd ((interactionCmp_lt_iff x b).mpr hl) hge
        · exact hg
    refine ⟨le_trans h1 hxb.1, fun y hy => ?_⟩
    rcases List.mem_cons.mp hy with rfl | hy
    · exact le_trans h1 hxb.2
    · exact h2 y hy

theorem minByFirst_mem (c : Interaction → Interaction → Ordering)
    (xs : List Interaction) (m : Interaction) (h : minByFirst c xs = some m) :
    m ∈ xs := by
  cases xs with
  | nil => simp [minByFirst] at h
  | cons x xs =>
    simp only [minByFirst, Option.some.injEq] at h
    rcases pickMinFrom_mem c x xs with h' | h'
    · rw [← h, h']
      exact List.mem_cons_self x xs
    · exact h ▸ List.mem_cons_of_mem x h'

theorem minByFirst_le (xs : List Interaction) (m : Interaction)
    (h : minByFirst interactionCmp xs = some m) :
    ∀ y ∈ xs, interactionTime m ≤ interactionTime y := by
  cases xs with
  | nil => simp [minByFirst] at h
  | cons x xs =>
    simp only [minByFirst, Option.some.injEq] at h
    obtain ⟨h1, h2⟩ := pickMinFrom_le x xs
    intro y hy
    rcases List.mem_cons.mp hy with rfl | hy
    · exact h ▸ h1
    · exact h ▸ h2 y hy

theorem minByFirst_isSome (c : Interaction → Interaction → Ordering)
    (x : Interaction) (xs : List Interaction) :
    ∃ m, minByFirst c (x :: xs) = some m :=
  ⟨pickMinFrom c x xs, rfl⟩

theorem dedupKeepFirst_subset (c : Interaction → Interaction → Ordering)
    (xs : List Interaction) : ∀ y ∈ dedupKeepFirst c xs, y ∈ xs := by
  induction xs using dedupKeepFirst.induct c with
  | case1 => intro y hy; simp [dedupKeepFirst] at hy
  | case2 x xs ih =>
    intro y hy
    rw [dedupKeepFirst] at hy
    rcases List.mem_cons.mp hy with rfl | hy
    · exact List.mem_cons_self y xs
    · exact List.mem_cons_of_mem x (List.mem_filter.mp (ih y hy)).1

theorem dedupKeepFirst_cover (xs : List Interaction) :
    ∀ x ∈ xs, ∃ y ∈ dedupKeepFirst interactionCmp xs,
      interactionTime y = interactionTime x := by
  induction xs using dedupKeepFirst.induct interactionCmp with
  | case1 => intro x hx; exact absurd hx (List.not_mem_nil x)
  | case2 z xs ih =>
    intro x hx
    rw [dedupKeepFirst]
    rcases List.mem_cons.mp hx with hxz | hx
    · exact ⟨z, List.mem_cons_self z _, by rw [hxz]⟩
    · by_cases heq : interactionCmp x z = .eq
      · exact ⟨z, List.mem_cons_self z _,
          ((interactionCmp_eq_iff x z).mp heq).symm⟩
      · have hx' : x ∈ xs.filter fun y => !(decide (interactionCmp y z = .eq)) :=
          List.mem_filter.mpr ⟨hx, by simp [heq]⟩
        obtain ⟨y, hy, hty⟩ := ih x hx'
        exact ⟨y, List.mem_cons_of_mem z hy, hty⟩

theorem mem_candidatePicks (objects : List Object) (snd : Sound) (i : Interaction)
    (h : i ∈ candidatePicks objects snd) :
    ∃ o ∈ objects, perObjectPick snd o = some i := by
  induction objects with
  | nil => exact absurd h (List.not_mem_nil i)
  | cons o os ih =>
    rw [candidatePicks] at h
    revert h
    split
    · next j hj =>
      intro h
      rcases List.mem_cons.mp h with hij | h
      · exact ⟨o, List.mem_cons_self o os, by rw [hj, hij]⟩
      · obtain ⟨o', ho', hp⟩ := ih h
        exact ⟨o', List.mem_cons_of_mem o ho', hp⟩
    · next hj =>
      intro h
      obtain ⟨o', ho', hp⟩ := ih h
      exact ⟨o', List.mem_cons_of_mem o ho', hp⟩

theorem mem_specCandidates (objects : List Object) (snd : Sound) (i : Interaction) :
    i ∈ specCandidates objects snd ↔
      ∃ o ∈ objects, i ∈ objectInteractions snd o := by
  induction objects with
  | nil =>
    simp only [specCandidates]
    constructor
    · intro h; exact absurd h (List.not_mem_nil i)
    · rintro ⟨o, ho, _⟩; exact absurd ho (List.not_mem_nil o)
  | cons o os ih =>
    rw [specCandidates, List.mem_append, ih]
    constructor
    · rintro (h | ⟨o', ho', hi⟩)
      · exact ⟨o, List.mem_cons_self o os, h⟩
      · exact ⟨o', List.mem_cons_of_mem o ho', hi⟩
    · rintro ⟨o', ho', hi⟩
      rcases List.mem_cons.mp ho' with rfl | ho'
      · exact Or.inl hi
      · exact Or.inr ⟨o', ho', hi⟩

theorem candidatePicks_subset_spec (objects : List Object) (snd : Sound)
    (i : Interaction) (h : i ∈ candidatePicks objects snd) :
    i ∈ specCandidates objects snd := by
  obtain ⟨o, ho, hp⟩ := mem_candidatePicks objects snd i h
  exact (mem_specCandidates objects snd i).mpr
    ⟨o, ho, minByFirst_mem _ _ _ hp⟩

theorem candidatePicks_ne_nil (objects : List Object) (snd : Sound)
    (h : specCandidates objects snd ≠ []) : candidatePicks objects snd ≠ [] := by
  induction objects with
  | nil => exact absurd rfl h
  | cons o os ih =>
    rw [specCandidates] at h
    rw [candidatePicks]
    cases hoi : objectInteractions snd o with
    | nil =>
      have hp : perObjectPick snd o = none := by
        rw [perObjectPick, hoi]; rfl
      rw [hp]
      rw [hoi, List.nil_append] at h
      exact ih h
    | cons x xs =>
      have hp : perObjectPick snd o = some (pickMinFrom interactionCmp x xs) := by
        rw [perObjectPick, hoi]; rfl
      rw [hp]
      exact List.cons_ne_nil _ _

theorem selectedInteraction_mem (objects : List Object) (snd : Sound)
    (i : Interaction) (h : selectedInteraction objects snd = some i) :
    i ∈ candidatePicks objects snd ∧ snd.ray.t_offset < interactionTime i := by
  have hm := minByFirst_mem _ _ _ h
  have hm' := List.mem_filter.mp hm
  refine ⟨dedupKeepFirst_subset _ _ _ hm'.1, ?_⟩
  simpa using hm'.2

theorem objectHit_mem_objectInteractions (snd : Sound) (o : Object) (h : Hit)
    (ρ : ℝ) (hm : Interaction.objectHit h ρ ∈ objectInteractions snd o) :
    ∃ g, o = .reflector g ρ := by
  cases o with
  | reflector g ρ' =>
    rw [objectInteractions] at hm
    obtain ⟨tri, _, htri⟩ := List.mem_filterMap.mp hm
    obtain ⟨hit, _, heq⟩ := Option.map_eq_some'.mp htri
    cases heq
    exact ⟨g, rfl⟩
  | receiver sph =>
    rw [objectInteractions] at hm
    obtain ⟨hit, _, heq⟩ := List.mem_map.mp hm
    cases heq

theorem selected_objectHit_reflectance (objects : List Object) (snd : Sound)
    (h : Hit) (ρ r : ℝ) (hall : allRefl objects r)
    (hsel : selectedInteraction objects snd = some (.objectHit h ρ)) : ρ = r := by
  obtain ⟨hp, _⟩ := selectedInteraction_mem objects snd _ hsel
  have hspec := candidatePicks_subset_spec objects snd _ hp
  obtain ⟨o, ho, hoi⟩ := (mem_specCandidates objects snd _).mp hspec
  obtain ⟨g, rfl⟩ := objectHit_mem_objectInteractions snd o h ρ hoi
  exact hall g ρ ho

theorem mem_stepSounds (objects : List Object) (ss : List Sound) (s' : Sound)
    (h : s' ∈ stepSounds objects ss) :
    ∃ s ∈ ss, soundOutcome objects s = .reflected s' := by
  induction ss with
  | nil => exact absurd h (List.not_mem_nil s')
  | cons s ss ih =>
    rw [stepSounds] at h
    revert h
    split
    · next s'' hout =>
      intro h
      rcases List.mem_cons.mp h with rfl | h
      · exact ⟨s, List.mem_cons_self s ss, hout⟩
      · obtain ⟨t, ht, hto⟩ := ih h
        exact ⟨t, List.mem_cons_of_mem s ht, hto⟩
    · next hout =>
      intro h
      obtain ⟨t, ht, hto⟩ := ih h
      exact ⟨t, List.mem_cons_of_mem s ht, hto⟩

theorem outcome_reflected (objects : List Object) (s s' : Sound)
    (h : soundOutcome objects s = .reflected s') :
    ∃ hit ρ, selectedInteraction objects s = some (.objectHit hit ρ) ∧
      s' = ⟨reflectRay s.ray hit, s.intensity * ρ⟩ ∧
      THRESHOLD ≤ s'.intensity := by
  rw [soundOutcome] at h
  revert h
  split
  · intro h; cases h
  · next hit ρ hsel =>
    intro h
    by_cases hth : THRESHOLD ≤ s.intensity * ρ
    · rw [if_pos hth] at h
      cases h
      exact ⟨hit, ρ, hsel, rfl, hth⟩
    · rw [if_neg hth] at h
      cases h
  · intro h; cases h

theorem stepSounds_intensity (objects : List Object) (r c : ℝ)
    (hall : allRefl objects r) (ss : List Sound)
    (hc : ∀ s ∈ ss, s.intensity = c) :
    ∀ s' ∈ stepSounds objects ss,
      s'.intensity = c * r ∧ THRESHOLD ≤ s'.intensity := by
  intro s' hs'
  obtain ⟨s, hs, hout⟩ := mem_stepSounds objects ss s' hs'
  obtain ⟨hit, ρ, hsel, rfl, hth⟩ := outcome_reflected objects s s' hout
  have hρ := selected_objectHit_reflectance objects s hit ρ r hall hsel
  exact ⟨by rw [hc s hs, hρ], hth⟩

theorem popAfter_nil (objects : List Object) (k : ℕ) :
    popAfter objects k [] = [] := by
  induction k with
  | zero => rfl
  | succ k ih => rw [popAfter, stepSounds]; exact ih

theorem popAfter_intensity (objects : List Object) (r : ℝ)
    (hall : allRefl objects r) (k : ℕ) (c : ℝ) (ss : List Sound)
    (hc : ∀ s ∈ ss, s.intensity = c) :
    ∀ s' ∈ popAfter objects k ss, s'.intensity = c * r ^ k := by
  induction k generalizing c ss with
  | zero =>
    intro s' hs'
    rw [popAfter] at hs'
    rw [hc s' hs', pow_zero, mul_one]
  | succ k ih =>
    intro s' hs'
    rw [popAfter] at hs'
    have hstep : ∀ s ∈ stepSounds objects ss, s.intensity = c * r :=
      fun s hs => (stepSounds_intensity objects r c hall ss hc s hs).1
    have := ih (c * r) (stepSounds objects ss) hstep s' hs'
    rw [this]
    ring

theorem stepSounds_eq_nil (objects : List Object) (r c : ℝ)
    (hall : allRefl objects r) (ss : List Sound)
    (hc : ∀ s ∈ ss, s.intensity = c) (hlt : c * r < THRESHOLD) :
    stepSounds objects ss = [] := by
  cases hstep : stepSounds objects ss with
  | nil => rfl
  | cons s' l =>
    exfalso
    have hs' : s' ∈ stepSounds objects ss := by
      rw [hstep]; exact List.mem_cons_self s' l
    obtain ⟨hint, hth⟩ := stepSounds_intensity objects r c hall ss hc s' hs'
    rw [hint] at hth
    exact absurd hlt (not_lt.mpr hth)

theorem runRounds_terminates (objects : List Object) (r : ℝ)
    (hall : allRefl objects r) :
    ∀ (m : ℕ) (c : ℝ) (ss : List Sound) (acc : List (Hit × ℝ)),
      (∀ s ∈ ss, s.intensity = c) → c * r ^ (m + 1) < THRESHOLD →
      ∃ res, runRounds objects (m + 1) ss acc = some res := by
  intro m
  induction m with
  | zero =>
    intro c ss acc hc hlt
    cases ss with
    | nil => exact ⟨acc, rfl⟩
    | cons s ss =>
      rw [pow_one] at hlt
      have hnil := stepSounds_eq_nil objects r c hall (s :: ss) hc hlt
      refine ⟨acc ++ stepHits objects (s :: ss), ?_⟩
      rw [runRounds, hnil]
      rfl
  | succ m ih =>
    intro c ss acc hc hlt
    cases ss with
    | nil => exact ⟨acc, rfl⟩
    | cons s ss =>
      rw [runRounds]
      refine ih (c * r) (stepSounds objects (s :: ss)) _
        (fun s' hs' => (stepSounds_intensity objects r c hall (s :: ss) hc s' hs').1)
        ?_
      calc c * r * r ^ (m + 1) = c * r ^ (m + 1 + 1) := by ring
      _ < THRESHOLD := hlt

theorem sqrt_of_sq (a b : ℝ) (hb : 0 ≤ b) (h : a = b ^ 2) : Real.sqrt a = b := by
  rw [h, Real.sqrt_sq hb]

/-- The model reproduces `intersect_correct_triangle` of `src/ray/tests.rs`. -/
theorem model_matches_triangle_test :
    intersectTriangle ⟨⟨0, 0, 0⟩, ⟨1, 0, 0⟩, 0⟩
      ⟨⟨2, 1, 0⟩, ⟨2, -1, 1⟩, ⟨2, -1, -1⟩⟩ =
      some ⟨2, ⟨2, 0, 0⟩, ⟨-1, 0, 0⟩⟩ := by
  rw [intersectTriangle]
  norm_num [Vec3.sub_def, Vec3.cross, Vec3.dot, EPSILON, Ray.at, Vec3.add_def,
    Vec3.smul_def, Vec3.unit, Vec3.mag, Vec3.div_def]
  rw [sqrt_of_sq 16 4 (by norm_num) (by norm_num)]
  norm_num

/-- The model reproduces `intersect_correct_triangle_no_intersection` of
`src/ray/tests.rs`. -/
theorem model_matches_triangle_miss_test :
    intersectTriangle ⟨⟨0, 1, 1⟩, ⟨1, 0, 0⟩, 0⟩
      ⟨⟨2, 0, 0⟩, ⟨2, 1, 0⟩, ⟨2, 0, 1⟩⟩ = none := by
  rw [intersectTriangle]
  norm_num [Vec3.sub_def, Vec3.cross, Vec3.dot, EPSILON]

/-- The model reproduces `intersect_correct_sphere` of `src/ray/tests.rs`. -/
theorem model_matches_sphere_test :
    intersectSphere ⟨⟨0, 0, 0⟩, ⟨1, 0, 0⟩, 0⟩ ⟨⟨2, 0, 0⟩, 1⟩ =
      some [⟨1, ⟨1, 0, 0⟩, ⟨-1, 0, 0⟩⟩, ⟨3, ⟨3, 0, 0⟩, ⟨-1, 0, 0⟩⟩] := by
  rw [intersectSphere]
  norm_num [sphereTca, sphereD2, sphereThc, Vec3.sub_def, Vec3.dot, EPSILON,
    Ray.at, Vec3.add_def, Vec3.smul_def, Vec3.unit, Vec3.mag, Vec3.div_def,
    Vec3.neg_def, Real.sqrt_one]

/-- The model reproduces `intersect_correct_sphere_tangent` of
`src/ray/tests.rs`. -/
theorem model_matches_sphere_tangent_test :
    intersectSphere ⟨⟨0, 1, 0⟩, ⟨1, 0, 0⟩, 0⟩ ⟨⟨2, 0, 0⟩, 1⟩ =
      some [⟨2, ⟨2, 1, 0⟩, ⟨0, 1, 0⟩⟩] := by
  rw [intersectSphere]
  norm_num [sphereTca, sphereD2, sphereThc, Vec3.sub_def, Vec3.dot, EPSILON,
    Ray.at, Vec3.add_def, Vec3.smul_def, Vec3.unit, Vec3.mag, Vec3.div_def,
    Real.sqrt_zero, Real.sqrt_one]

/-- The model reproduces `intersect_correct_sphere_no_intersection` of
`src/ray/tests.rs`. -/
theorem model_matches_sphere_miss_test :
    intersectSphere ⟨⟨0, 2, 0⟩, ⟨1, 0, 0⟩, 0⟩ ⟨⟨2, 0, 0⟩, 1⟩ = none := by
  rw [intersectSphere]
  norm_num [sphereTca, sphereD2, Vec3.sub_def, Vec3.dot]

/-- C1: for every ray and every primitive (triangle or sphere), each hit
record returned by the intersection kernel reports a global hit time equal to
the local ray parameter `t` plus the ray's `time_offset`, its point being the
ray evaluated at that local parameter (so `Hit.time` already includes the
ray's accumulated `time_offset`). -/
theorem hit_time_includes_time_offset (ray : Ray) :
    (∀ tri hit, intersectTriangle ray tri = some hit →
      hit.time = triLocalT ray tri + ray.t_offset ∧
        hit.point = ray.at (triLocalT ray tri)) ∧
    (∀ sph hits, intersectSphere ray sph = some hits →
      ∀ h ∈ hits, ∃ t, h.time = t + ray.t_offset ∧ h.point = ray.at t) := by
  constructor
  · intro tri hit h
    simp only [intersectTriangle] at h
    split_ifs at h with h1 h2 h3
    injection h with h
    rw [← h]
    exact ⟨rfl, rfl⟩
  · intro sph hits h
    simp only [intersectSphere] at h
    split_ifs at h with h1 h2
    · injection h with h
      intro x hx
      rw [← h] at hx
      rcases List.mem_singleton.mp hx with rfl
      exact ⟨sphereTca ray sph, rfl, rfl⟩
    · injection h with h
      intro x hx
      rw [← h] at hx
      rcases List.mem_cons.mp hx with rfl | hx
      · exact ⟨sphereTca ray sph - sphereThc ray sph, rfl, rfl⟩
      · rcases List.mem_singleton.mp hx with rfl
        exact ⟨sphereTca ray sph + sphereThc ray sph, rfl, rfl⟩

/-- The test triangle of `src/ray/tests.rs` hit by a ray whose `t_offset` is
`5`: concrete input for the C1 witness. -/
noncomputable def c1RayW : Ray := ⟨⟨0, 0, 0⟩, ⟨1, 0, 0⟩, 5⟩

noncomputable def c1TriW : Triangle := ⟨⟨2, 1, 0⟩, ⟨2, -1, 1⟩, ⟨2, -1, -1⟩⟩

noncomputable def c1HitW : Hit := ⟨7, ⟨2, 0, 0⟩, ⟨-1, 0, 0⟩⟩

theorem c1_eval : intersectTriangle c1RayW c1TriW = some c1HitW := by
  rw [intersectTriangle, c1RayW, c1TriW, c1HitW]
  norm_num [Vec3.sub_def, Vec3.cross, Vec3.dot, EPSILON, Ray.at, Vec3.add_def,
    Vec3.smul_def, Vec3.unit, Vec3.mag, Vec3.div_def]
  rw [sqrt_of_sq 16 4 (by norm_num) (by norm_num)]
  norm_num

/-- Witness for C1: at the concrete ray with `t_offset = 5` the kernel's hit
on the test triangle has global time `triLocalT + 5 = 7`. -/
theorem hit_time_includes_time_offset_witness :
    c1HitW.time = triLocalT c1RayW c1TriW + c1RayW.t_offset ∧
      c1HitW.point = c1RayW.at (triLocalT c1RayW c1TriW) :=
  (hit_time_includes_time_offset c1RayW).1 c1TriW c1HitW c1_eval

/-- C4: the `Ord` comparisons of `Hit` and `Interaction` are determined solely
by `time`, independent of kind, and the NaN fallback resolves to Equal — but
`PartialOrd for Hit` (`src/intersect.rs` line 21) calls itself unconditionally
and so never returns a value within any finite number of unfoldings: the
claimed "terminating for every pair of Hit values" fails on the code. -/
theorem hit_partial_cmp_diverges :
    (∀ (fuel : ℕ) (a b : Hit), hitPcmpFuel fuel a b = none) ∧
    (∀ x y : Interaction,
      interactionCmp x y = hitCmp (interactionHit x) (interactionHit y)) ∧
    (∀ x : Option ℝ, nanUnwrapEq none x = .eq ∧ nanUnwrapEq x none = .eq) := by
  refine ⟨?_, ?_, ?_⟩
  · intro fuel
    induction fuel with
    | zero => intro a b; rfl
    | succ n ih => intro a b; rw [hitPcmpFuel]; exact ih a b
  · intro x y
    cases x <;> cases y <;> rfl
  · intro x
    refine ⟨rfl, ?_⟩
    cases x <;> rfl

/-- C5: the triangle-fan builder on exactly two points silently returns an
empty triangle list (no error), while the zero- and one-point inputs reach the
out-of-bounds panic of `points[0]` / `points[1]`; the claimed fail-fast error
for every input of fewer than three points fails on the code at two points. -/
theorem triangle_fan_two_points_silently_empty :
    buildGeometryFromTriangleFan [⟨0, 0, 0⟩, ⟨1, 0, 0⟩] = .ok [] ∧
      buildGeometryFromTriangleFan [] = .error .indexOutOfBounds ∧
      buildGeometryFromTriangleFan [⟨0, 0, 0⟩] = .error .indexOutOfBounds :=
  ⟨rfl, rfl, rfl⟩

/-- C8: reflection replaces the direction by `d - 2*(d·n)*n` (with the hit
point as the new origin and the hit time as the new time offset); at normal
incidence — direction a scalar multiple of the unit normal — the reflected
direction is exactly the negation of the incoming direction. -/
theorem reflect_normal_incidence (r : Ray) (hit : Hit) (c : ℝ)
    (hn : hit.unit_normal.dot hit.unit_normal = 1)
    (hd : r.direction = c • hit.unit_normal) :
    (reflectRay r hit).direction = -r.direction ∧
      (reflectRay r hit).origin = hit.point ∧
      (reflectRay r hit).t_offset = hit.time := by
  refine ⟨?_, rfl, rfl⟩
  show r.direction - (2 * r.direction.dot hit.unit_normal) • hit.unit_normal =
    -r.direction
  obtain ⟨t, p, n⟩ := hit
  obtain ⟨nx, ny, nz⟩ := n
  simp only [Vec3.dot] at hn
  rw [hd]
  simp only [Vec3.smul_def, Vec3.sub_def, Vec3.dot, Vec3.neg_def, Vec3.mk.injEq]
  refine ⟨?_, ?_, ?_⟩
  · linear_combination (-2 * c * nx) * hn
  · linear_combination (-2 * c * ny) * hn
  · linear_combination (-2 * c * nz) * hn

noncomputable def c8RayW : Ray := ⟨⟨0, 0, 5⟩, ⟨0, 0, -2⟩, 0⟩

noncomputable def c8HitW : Hit := ⟨1, ⟨0, 0, 0⟩, ⟨0, 0, 1⟩⟩

theorem c8_hn : c8HitW.unit_normal.dot c8HitW.unit_normal = 1 := by
  norm_num [c8HitW, Vec3.dot]

theorem c8_hd : c8RayW.direction = (-2 : ℝ) • c8HitW.unit_normal := by
  norm_num [c8RayW, c8HitW, Vec3.smul_def]

/-- Witness for C8: a ray of direction `(0,0,-2)` meeting a mirror of unit
normal `(0,0,1)` head on leaves with direction `(0,0,2)`. -/
theorem reflect_normal_incidence_witness :
    (reflectRay c8RayW c8HitW).direction = -c8RayW.direction ∧
      (reflectRay c8RayW c8HitW).origin = c8HitW.point ∧
      (reflectRay c8RayW c8HitW).t_offset = c8HitW.time :=
  reflect_normal_incidence c8RayW c8HitW (-2) c8_hn c8_hd

theorem emitAll_nil_of_zero (es : List Emitter) (rng : ℕ → ℝ) (start : ℕ)
    (h : ∀ e ∈ es, e.sounds_per_tick = 0) : emitAll es rng start = [] := by
  induction es generalizing start with
  | nil => rfl
  | cons e es ih =>
    rw [emitAll, emitFrom, h e (List.mem_cons_self e es), List.range_zero]
    rw [List.map_nil, List.nil_append]
    exact ih _ fun e' he' => h e' (List.mem_cons_of_mem e he')

theorem runRounds_empty_pop (objects : List Object) (fuel : ℕ)
    (acc : List (Hit × ℝ)) : runRounds objects fuel [] acc = some acc := by
  cases fuel <;> rfl

/-- C10: a scene with no emitters, or whose emitters all have
`sounds_per_tick = 0`, simulates to the empty list of receiver hits: the
initial population is empty and the round loop exits at once. -/
theorem simulate_no_emission_empty (scene : Scene) (fuel : ℕ) (rng : ℕ → ℝ)
    (h : scene.emitters = [] ∨ ∀ e ∈ scene.emitters, e.sounds_per_tick = 0) :
    simulate fuel scene rng = some [] := by
  rw [simulate]
  have he : emitAll scene.emitters rng 0 = [] := by
    rcases h with h | h
    · rw [h]; rfl
    · exact emitAll_nil_of_zero scene.emitters rng 0 h
  rw [he]
  exact runRounds_empty_pop scene.objects fuel []

def c10SceneW : Scene := ⟨[], []⟩

/-- Witness for C10: the scene with no objects and no emitters simulates to
the empty hit list. -/
theorem simulate_no_emission_empty_witness :
    simulate 3 c10SceneW (fun _ => 0) = some [] :=
  simulate_no_emission_empty c10SceneW 3 (fun _ => 0) (Or.inl rfl)

theorem Vec3.mag_nonneg (v : Vec3) : 0 ≤ v.mag :=
  Real.sqrt_nonneg _

theorem Vec3.mag_smul (c : ℝ) (v : Vec3) : (c • v).mag = |c| * v.mag := by
  obtain ⟨x, y, z⟩ := v
  simp only [Vec3.smul_def, Vec3.mag]
  rw [show (c * x) ^ 2 + (c * y) ^ 2 + (c * z) ^ 2 =
    c ^ 2 * (x ^ 2 + y ^ 2 + z ^ 2) by ring]
  rw [Real.sqrt_mul (sq_nonneg c), Real.sqrt_sq_eq_abs]

theorem Vec3.mag_eq_zero_iff (v : Vec3) : v.mag = 0 ↔ v = ⟨0, 0, 0⟩ := by
  obtain ⟨x, y, z⟩ := v
  rw [Vec3.mag]
  constructor
  · intro h
    have hle : x ^ 2 + y ^ 2 + z ^ 2 ≤ 0 := by
      have := Real.sqrt_eq_zero'.mp h
      simpa using this
    have hx : x = 0 := by nlinarith [sq_nonneg x, sq_nonneg y, sq_nonneg z]
    have hy : y = 0 := by nlinarith [sq_nonneg x, sq_nonneg y, sq_nonneg z]
    have hz : z = 0 := by nlinarith [sq_nonneg x, sq_nonneg y, sq_nonneg z]
    simp [hx, hy, hz]
  · rintro h
    rw [Vec3.mk.injEq] at h
    obtain ⟨rfl, rfl, rfl⟩ := h
    norm_num [Real.sqrt_zero]

/-- C9 (amended): each emitter produces exactly `sounds_per_tick` rays, each
from `emitter.origin` with intensity `1.0` and time offset `0`; for
nonnegative samples every emitted direction has nonnegative components (it
lies in the closed nonnegative octant — not the whole sphere), and whenever
the sampled component vector is nonzero the direction's magnitude is the
propagation speed constant (on the all-zero sample the direction degenerates
to the zero vector instead). -/
theorem emission_shape (e : Emitter) (rng : ℕ → ℝ) (start : ℕ)
    (hs : ∀ n, 0 ≤ rng n) :
    (emitFrom e rng start).length = e.sounds_per_tick ∧
      ∀ s ∈ emitFrom e rng start,
        s.ray.origin = e.origin ∧ s.intensity = 1 ∧ s.ray.t_offset = 0 ∧
        (0 ≤ s.ray.direction.x ∧ 0 ≤ s.ray.direction.y ∧
          0 ≤ s.ray.direction.z) ∧
        (s.ray.direction ≠ ⟨0, 0, 0⟩ → s.ray.direction.mag = SPEED_OF_SOUND) := by
  constructor
  · rw [emitFrom, List.length_map, List.length_range]
  · intro s hs'
    rw [emitFrom] at hs'
    obtain ⟨j, _, rfl⟩ := List.mem_map.mp hs'
    rw [emitSound]
    refine ⟨rfl, rfl, rfl, ?_, ?_⟩
    · have hc : 0 ≤ SPEED_OF_SOUND / (Vec3.mag ⟨rng (start + 3 * j),
          rng (start + 3 * j + 1), rng (start + 3 * j + 2)⟩) :=
        div_nonneg (by norm_num [SPEED_OF_SOUND]) (Vec3.mag_nonneg _)
      exact ⟨mul_nonneg hc (hs _), mul_nonneg hc (hs _), mul_nonneg hc (hs _)⟩
    · intro hne
      set u : Vec3 := ⟨rng (start + 3 * j), rng (start + 3 * j + 1),
        rng (start + 3 * j + 2)⟩ with hu
      have hu0 : u ≠ ⟨0, 0, 0⟩ := by
        intro h0
        apply hne
        rw [h0]
        show Vec3.mk _ _ _ = _
        norm_num
      have hmagne : u.mag ≠ 0 := fun h => hu0 ((Vec3.mag_eq_zero_iff u).mp h)
      have hmagpos : 0 < u.mag :=
        lt_of_le_of_ne (Vec3.mag_nonneg u) (Ne.symm hmagne)
      show ((SPEED_OF_SOUND / u.mag) • u).mag = SPEED_OF_SOUND
      rw [Vec3.mag_smul, abs_of_nonneg
        (div_nonneg (by norm_num [SPEED_OF_SOUND]) (Vec3.mag_nonneg u)),
        div_mul_cancel₀ _ hmagne]

noncomputable def c9EmitterW : Emitter := ⟨⟨0, 0, 0⟩, 1⟩

/-- Witness for C9 (amended) on the constant sample stream `1/2`. -/
theorem emission_shape_witness :
    (emitFrom c9EmitterW (fun _ => 1 / 2) 0).length =
        c9EmitterW.sounds_per_tick ∧
      ∀ s ∈ emitFrom c9EmitterW (fun _ => 1 / 2) 0,
        s.ray.origin = c9EmitterW.origin ∧ s.intensity = 1 ∧
        s.ray.t_offset = 0 ∧
        (0 ≤ s.ray.direction.x ∧ 0 ≤ s.ray.direction.y ∧
          0 ≤ s.ray.direction.z) ∧
        (s.ray.direction ≠ ⟨0, 0, 0⟩ → s.ray.direction.mag = SPEED_OF_SOUND) :=
  emission_shape c9EmitterW (fun _ => 1 / 2) 0 (fun _ => one_half_pos.le)

/-- Counterexample for C9: on the all-zero sample stream (a possible output
of `rng.gen()`, which samples `[0, 1)`), the single emitted ray's direction is
the zero vector (in the source, `direction * (344 / 0.0)` is a NaN vector),
whose magnitude is `0`, not the propagation speed constant `344` — and no
emitted direction ever has a negative component, so orientations are not drawn
from the whole unit sphere. -/
theorem emission_not_uniform_counterexample :
    emitFrom ⟨⟨0, 0, 0⟩, 1⟩ (fun _ => 0) 0 =
      [⟨⟨⟨0, 0, 0⟩, ⟨0, 0, 0⟩, 0⟩, 1⟩] ∧
      Vec3.mag ⟨0, 0, 0⟩ = 0 ∧ (0 : ℝ) ≠ SPEED_OF_SOUND := by
  refine ⟨?_, ?_, by norm_num [SPEED_OF_SOUND]⟩
  · rw [emitFrom]
    norm_num [List.range_succ, emitSound, Vec3.smul_def, Vec3.mag,
      Real.sqrt_zero]
  · norm_num [Vec3.mag, Real.sqrt_zero]

theorem Vec3.dot_comm (a b : Vec3) : a.dot b = b.dot a := by
  obtain ⟨ax, ay, az⟩ := a
  obtain ⟨bx, by', bz⟩ := b
  simp only [Vec3.dot]
  ring

theorem Vec3.dot_smul_left (k : ℝ) (a b : Vec3) :
    (k • a).dot b = k * a.dot b := by
  obtain ⟨ax, ay, az⟩ := a
  obtain ⟨bx, by', bz⟩ := b
  simp only [Vec3.smul_def, Vec3.dot]
  ring

theorem epsilon_pos : 0 < EPSILON := by
  norm_num [EPSILON]

/-- C6 (amended): for a ray of unit-length direction whose line passes through
the sphere's centre and whose radius exceeds the epsilon window, the kernel
returns exactly two hits at parameters `tca - r` and `tca + r`; when `thc`
lies within epsilon of zero (and `d2 ≤ r²`) it returns exactly one hit at
parameter `tca`; and when `d2 > r²` it returns no hit.  (Without the
unit-direction hypothesis the through-centre case fails: see the
counterexample.) -/
theorem sphere_hit_cases (ray : Ray) (s : Sphere) :
    (∀ k : ℝ, ray.direction.dot ray.direction = 1 →
      s.origin - ray.origin = k • ray.direction → EPSILON < s.radius →
      ∃ h0 h1, intersectSphere ray s = some [h0, h1] ∧
        h0.time = (sphereTca ray s - s.radius) + ray.t_offset ∧
        h1.time = (sphereTca ray s + s.radius) + ray.t_offset) ∧
    (sphereD2 ray s ≤ s.radius ^ 2 → -EPSILON ≤ sphereThc ray s →
      sphereThc ray s ≤ EPSILON →
      ∃ h, intersectSphere ray s = some [h] ∧
        h.time = sphereTca ray s + ray.t_offset) ∧
    (s.radius ^ 2 < sphereD2 ray s → intersectSphere ray s = none) := by
  refine ⟨?_, ?_, ?_⟩
  · intro k hunit hoc hrad
    have hd2 : sphereD2 ray s = 0 := by
      show (s.origin - ray.origin).dot (s.origin - ray.origin) -
        sphereTca ray s * sphereTca ray s = 0
      rw [sphereTca, hoc, Vec3.dot_smul_left, Vec3.dot_smul_left,
        Vec3.dot_comm ray.direction (k • ray.direction), Vec3.dot_smul_left,
        hunit]
      ring
    have hrnn : 0 ≤ s.radius := le_of_lt (lt_trans epsilon_pos hrad)
    have hthc : sphereThc ray s = s.radius := by
      rw [sphereThc, hd2, sub_zero, Real.sqrt_sq hrnn]
    simp only [intersectSphere]
    rw [hd2, hthc]
    rw [if_neg (not_lt.mpr (sq_nonneg s.radius))]
    rw [if_neg (fun hc => absurd hrad (not_lt.mpr hc.2))]
    exact ⟨_, _, rfl, rfl, rfl⟩
  · intro hle hthc1 hthc2
    simp only [intersectSphere]
    rw [if_neg (not_lt.mpr hle), if_pos ⟨hthc1, hthc2⟩]
    exact ⟨_, rfl, rfl⟩
  · intro hgt
    simp only [intersectSphere]
    rw [if_pos hgt]

noncomputable def c6RayW : Ray := ⟨⟨0, 0, 0⟩, ⟨1, 0, 0⟩, 0⟩

noncomputable def c6SphW : Sphere := ⟨⟨2, 0, 0⟩, 1⟩

theorem c6_hunit : c6RayW.direction.dot c6RayW.direction = 1 := by
  norm_num [c6RayW, Vec3.dot]

theorem c6_hoc : c6SphW.origin - c6RayW.origin = (2 : ℝ) • c6RayW.direction := by
  norm_num [c6RayW, c6SphW, Vec3.sub_def, Vec3.smul_def]

theorem c6_hrad : EPSILON < c6SphW.radius := by
  norm_num [EPSILON, c6SphW]

/-- Witness for C6 (amended): the unit ray through the centre of the test
sphere of `src/ray/tests.rs` gets exactly two hits at `tca ∓ r`. -/
theorem sphere_hit_cases_witness :
    ∃ h0 h1, intersectSphere c6RayW c6SphW = some [h0, h1] ∧
      h0.time = (sphereTca c6RayW c6SphW - c6SphW.radius) + c6RayW.t_offset ∧
      h1.time = (sphereTca c6RayW c6SphW + c6SphW.radius) + c6RayW.t_offset :=
  (sphere_hit_cases c6RayW c6SphW).1 2 c6_hunit c6_hoc c6_hrad

theorem c6_sqrt49 : Real.sqrt 49 = 7 :=
  sqrt_of_sq 49 7 (by norm_num) (by norm_num)

theorem c6_thc_eval :
    sphereThc ⟨⟨0, 0, 0⟩, ⟨2, 0, 0⟩, 0⟩ ⟨⟨1, 0, 0⟩, 1⟩ = 2 := by
  rw [sphereThc]
  norm_num [sphereD2, sphereTca, Vec3.sub_def, Vec3.dot]
  rw [sqrt_of_sq 4 2 (by norm_num) (by norm_num)]

/-- Counterexample for C6: the ray of direction `(2, 0, 0)` (length 2, not a
unit vector) from the origin has the sphere centre `(1, 0, 0)` on its line,
`tca = 2` and radius `1`, yet the kernel's two hits are at parameters `0` and
`4`, not at `tca - r = 1` and `tca + r = 3`: the claimed through-centre hit
parameters fail for every ray, holding only for unit-length directions. -/
theorem sphere_through_center_counterexample :
    (⟨⟨1, 0, 0⟩, 1⟩ : Sphere).origin =
        (⟨⟨0, 0, 0⟩, ⟨2, 0, 0⟩, 0⟩ : Ray).origin +
          (1 / 2 : ℝ) • (⟨⟨0, 0, 0⟩, ⟨2, 0, 0⟩, 0⟩ : Ray).direction ∧
      sphereTca ⟨⟨0, 0, 0⟩, ⟨2, 0, 0⟩, 0⟩ ⟨⟨1, 0, 0⟩, 1⟩ = 2 ∧
      intersectSphere ⟨⟨0, 0, 0⟩, ⟨2, 0, 0⟩, 0⟩ ⟨⟨1, 0, 0⟩, 1⟩ =
        some [⟨0, ⟨0, 0, 0⟩, ⟨-1, 0, 0⟩⟩, ⟨4, ⟨8, 0, 0⟩, ⟨-1, 0, 0⟩⟩] ∧
      (0 : ℝ) ≠ 2 - 1 ∧ (4 : ℝ) ≠ 2 + 1 := by
  refine ⟨?_, ?_, ?_, by norm_num, by norm_num⟩
  · norm_num [Vec3.add_def, Vec3.smul_def]
  · norm_num [sphereTca, Vec3.sub_def, Vec3.dot]
  · rw [intersectSphere]
    norm_num [c6_thc_eval, sphereTca, sphereD2, Vec3.sub_def, Vec3.dot,
      EPSILON, Ray.at, Vec3.add_def, Vec3.smul_def, Vec3.unit, Vec3.mag,
      Vec3.div_def, Vec3.neg_def, Real.sqrt_one, c6_sqrt49]

theorem pick_mem_candidatePicks (objects : List Object) (snd : Sound)
    (o : Object) (p : Interaction) (ho : o ∈ objects)
    (hp : perObjectPick snd o = some p) : p ∈ candidatePicks objects snd := by
  induction objects with
  | nil => exact absurd ho (List.not_mem_nil o)
  | cons o' os ih =>
    rcases List.mem_cons.mp ho with rfl | ho'
    · rw [candidatePicks, hp]
      exact List.mem_cons_self p _
    · rw [candidatePicks]
      cases hq : perObjectPick snd o' with
      | none => exact ih ho'
      | some q => exact List.mem_cons_of_mem q (ih ho')

/-- C2 (amended): the engine first keeps, per object, only that object's
earliest candidate and applies the `time > t_offset` filter to these
per-object minima; consequently, whenever every candidate across all objects
has hit time strictly greater than `t_offset` (in particular no earlier
same-object candidate can be discarded by the filter), the selected
interaction exists, comes from the full candidate set, passes the filter and
has minimal hit time among all candidates. -/
theorem earliest_selected_when_all_pass (objects : List Object) (snd : Sound)
    (hpass : ∀ c ∈ specCandidates objects snd,
      snd.ray.t_offset < interactionTime c)
    (hne : specCandidates objects snd ≠ []) :
    ∃ i, selectedInteraction objects snd = some i ∧
      i ∈ specCandidates objects snd ∧
      snd.ray.t_offset < interactionTime i ∧
      ∀ c ∈ specCandidates objects snd,
        interactionTime i ≤ interactionTime c := by
  have hpne := candidatePicks_ne_nil objects snd hne
  have hsub : ∀ a ∈ dedupKeepFirst interactionCmp (candidatePicks objects snd),
      a ∈ specCandidates objects snd := fun a ha =>
    candidatePicks_subset_spec objects snd a (dedupKeepFirst_subset _ _ a ha)
  have hfeq : (dedupKeepFirst interactionCmp
      (candidatePicks objects snd)).filter
      (fun i => decide (snd.ray.t_offset < interactionTime i)) =
      dedupKeepFirst interactionCmp (candidatePicks objects snd) := by
    apply List.filter_eq_self.mpr
    intro a ha
    simpa using hpass a (hsub a ha)
  have hsel : selectedInteraction objects snd =
      minByFirst interactionCmp
        (dedupKeepFirst interactionCmp (candidatePicks objects snd)) := by
    rw [selectedInteraction, hfeq]
  obtain ⟨x, xs, hxs⟩ : ∃ x xs, candidatePicks objects snd = x :: xs := by
    cases hcp : candidatePicks objects snd with
    | nil => exact absurd hcp hpne
    | cons x xs => exact ⟨x, xs, rfl⟩
  obtain ⟨m, hm⟩ : ∃ m, minByFirst interactionCmp
      (dedupKeepFirst interactionCmp (candidatePicks objects snd)) = some m := by
    rw [hxs, dedupKeepFirst]
    exact minByFirst_isSome _ _ _
  have hmem := minByFirst_mem _ _ _ hm
  have hmspec : m ∈ specCandidates objects snd := hsub m hmem
  refine ⟨m, by rw [hsel, hm], hmspec, hpass m hmspec, ?_⟩
  intro c hc
  obtain ⟨o, ho, hoi⟩ := (mem_specCandidates objects snd c).mp hc
  obtain ⟨p, hp⟩ : ∃ p, perObjectPick snd o = some p := by
    rw [perObjectPick]
    cases hoil : objectInteractions snd o with
    | nil => rw [hoil] at hoi; exact absurd hoi (List.not_mem_nil c)
    | cons a l => exact minByFirst_isSome _ _ _
  have hple : interactionTime p ≤ interactionTime c := by
    have hp' : minByFirst interactionCmp (objectInteractions snd o) = some p := hp
    exact minByFirst_le _ p hp' c hoi
  have hpicks : p ∈ candidatePicks objects snd :=
    pick_mem_candidatePicks objects snd o p ho hp
  obtain ⟨y, hy, hyt⟩ := dedupKeepFirst_cover (candidatePicks objects snd) p hpicks
  calc interactionTime m ≤ interactionTime y := minByFirst_le _ m hm y hy
  _ = interactionTime p := hyt
  _ ≤ interactionTime c := hple

/-- A triangle lying in the plane `x = 0`, containing the origin. -/
noncomputable def c2Tri0 : Triangle := ⟨⟨0, 1, 0⟩, ⟨0, -1, 1⟩, ⟨0, -1, -1⟩⟩

/-- The same triangle translated to `x = 5`. -/
noncomputable def c2Tri5 : Triangle := ⟨⟨5, 1, 0⟩, ⟨5, -1, 1⟩, ⟨5, -1, -1⟩⟩

/-- One reflector owning both triangles. -/
noncomputable def c2ObjsC : List Object := [.reflector [c2Tri0, c2Tri5] (1 / 2)]

/-- A sound whose ray starts at the origin (on `c2Tri0`) with `t_offset 0`. -/
noncomputable def c2SndC : Sound := ⟨⟨⟨0, 0, 0⟩, ⟨1, 0, 0⟩, 0⟩, 1⟩

theorem c2_tri0_eval :
    intersectTriangle ⟨⟨0, 0, 0⟩, ⟨1, 0, 0⟩, 0⟩ c2Tri0 =
      some ⟨0, ⟨0, 0, 0⟩, ⟨-1, 0, 0⟩⟩ := by
  rw [intersectTriangle, c2Tri0]
  norm_num [Vec3.sub_def, Vec3.cross, Vec3.dot, EPSILON, Ray.at, Vec3.add_def,
    Vec3.smul_def, Vec3.unit, Vec3.mag, Vec3.div_def]
  rw [sqrt_of_sq 16 4 (by norm_num) (by norm_num)]
  norm_num

theorem c2_tri5_eval :
    intersectTriangle ⟨⟨0, 0, 0⟩, ⟨1, 0, 0⟩, 0⟩ c2Tri5 =
      some ⟨5, ⟨5, 0, 0⟩, ⟨-1, 0, 0⟩⟩ := by
  rw [intersectTriangle, c2Tri5]
  norm_num [Vec3.sub_def, Vec3.cross, Vec3.dot, EPSILON, Ray.at, Vec3.add_def,
    Vec3.smul_def, Vec3.unit, Vec3.mag, Vec3.div_def]
  rw [sqrt_of_sq 16 4 (by norm_num) (by norm_num)]
  norm_num

theorem c2_spec_eval :
    specCandidates c2ObjsC c2SndC =
      [.objectHit ⟨0, ⟨0, 0, 0⟩, ⟨-1, 0, 0⟩⟩ (1 / 2),
       .objectHit ⟨5, ⟨5, 0, 0⟩, ⟨-1, 0, 0⟩⟩ (1 / 2)] := by
  rw [c2ObjsC, specCandidates, specCandidates, objectInteractions]
  simp [c2SndC, c2_tri0_eval, c2_tri5_eval]

theorem c2_pick_eval :
    candidatePicks c2ObjsC c2SndC =
      [.objectHit ⟨0, ⟨0, 0, 0⟩, ⟨-1, 0, 0⟩⟩ (1 / 2)] := by
  have hoi : objectInteractions c2SndC (.reflector [c2Tri0, c2Tri5] (1 / 2)) =
      [.objectHit ⟨0, ⟨0, 0, 0⟩, ⟨-1, 0, 0⟩⟩ (1 / 2),
       .objectHit ⟨5, ⟨5, 0, 0⟩, ⟨-1, 0, 0⟩⟩ (1 / 2)] := by
    rw [objectInteractions]
    simp [c2SndC, c2_tri0_eval, c2_tri5_eval]
  have hnotlt : interactionCmp
      (.objectHit ⟨5, ⟨5, 0, 0⟩, ⟨-1, 0, 0⟩⟩ (1 / 2))
      (.objectHit ⟨0, ⟨0, 0, 0⟩, ⟨-1, 0, 0⟩⟩ (1 / 2)) ≠ .lt := by
    rw [Ne, interactionCmp_lt_iff]
    norm_num [interactionTime, interactionHit]
  have hpop : perObjectPick c2SndC (.reflector [c2Tri0, c2Tri5] (1 / 2)) =
      some (.objectHit ⟨0, ⟨0, 0, 0⟩, ⟨-1, 0, 0⟩⟩ (1 / 2)) := by
    rw [perObjectPick, hoi, minByFirst, pickMinFrom, if_neg hnotlt, pickMinFrom]
  rw [c2ObjsC, candidatePicks, hpop, candidatePicks]

/-- Counterexample for C2: one reflector owns a triangle through the ray's
origin (candidate hit time `0`, not above `t_offset = 0`) and a second
triangle at distance `5` (candidate hit time `5 > 0`).  Filtering the full
candidate set and then taking the minimum — the claim's selection — picks the
time-`5` candidate, but the engine takes each object's minimum first, so the
time-`0` candidate shadows its whole object, the filter then discards it, and
nothing is selected at all. -/
theorem per_object_min_shadows_later_candidate :
    specSelected c2ObjsC c2SndC =
        some (.objectHit ⟨5, ⟨5, 0, 0⟩, ⟨-1, 0, 0⟩⟩ (1 / 2)) ∧
      selectedInteraction c2ObjsC c2SndC = none := by
  constructor
  · rw [specSelected, c2_spec_eval]
    norm_num [List.filter_cons, List.filter_nil, interactionTime,
      interactionHit, c2SndC, minByFirst, pickMinFrom]
  · rw [selectedInteraction, c2_pick_eval, dedupKeepFirst, List.filter_nil,
      dedupKeepFirst]
    norm_num [List.filter_cons, List.filter_nil, interactionTime,
      interactionHit, c2SndC, minByFirst]

noncomputable def c2ObjsW : List Object :=
  [.reflector [⟨⟨2, 1, 0⟩, ⟨2, -1, 1⟩, ⟨2, -1, -1⟩⟩] (1 / 2)]

noncomputable def c2SndW : Sound := ⟨⟨⟨0, 0, 0⟩, ⟨1, 0, 0⟩, 0⟩, 1⟩

theorem c2_specW_eval :
    specCandidates c2ObjsW c2SndW =
      [.objectHit ⟨2, ⟨2, 0, 0⟩, ⟨-1, 0, 0⟩⟩ (1 / 2)] := by
  rw [c2ObjsW, specCandidates, specCandidates, objectInteractions]
  simp [c2SndW, model_matches_triangle_test]

theorem c2_hpassW : ∀ c ∈ specCandidates c2ObjsW c2SndW,
    c2SndW.ray.t_offset < interactionTime c := by
  rw [c2_specW_eval]
  intro c hc
  rcases List.mem_singleton.mp hc with rfl
  norm_num [interactionTime, interactionHit, c2SndW]

theorem c2_hneW : specCandidates c2ObjsW c2SndW ≠ [] := by
  rw [c2_specW_eval]
  exact List.cons_ne_nil _ _

/-- Witness for C2 (amended): one reflector, one triangle, hit at time `2`
above the offset `0` — the engine selects it and it is the earliest candidate. -/
theorem earliest_selected_when_all_pass_witness :
    ∃ i, selectedInteraction c2ObjsW c2SndW = some i ∧
      i ∈ specCandidates c2ObjsW c2SndW ∧
      c2SndW.ray.t_offset < interactionTime i ∧
      ∀ c ∈ specCandidates c2ObjsW c2SndW,
        interactionTime i ≤ interactionTime c :=
  earliest_selected_when_all_pass c2ObjsW c2SndW c2_hpassW c2_hneW

theorem threshold_pos : 0 < THRESHOLD := by
  norm_num [THRESHOLD]

theorem popAfter_succ_eq (objects : List Object) (k : ℕ) (ss : List Sound) :
    popAfter objects (k + 1) ss =
      stepSounds objects (popAfter objects k ss) := by
  induction k generalizing ss with
  | zero => rfl
  | succ k ih =>
    show popAfter objects (k + 1) (stepSounds objects ss) = _
    rw [ih (stepSounds objects ss)]
    rfl

/-- C7: in a scene whose reflectors all have reflectance `r < 1`, a population
emitted at intensity `1.0` has, after `k` rounds, every surviving sound at
intensity exactly `r ^ k`, and every sound surviving a further reflection at
intensity strictly below `r ^ k` — intensity strictly monotonically decreases
across successive reflections. -/
theorem intensity_decay_geometric (objects : List Object) (r : ℝ)
    (ss : List Sound) (k : ℕ) (hall : allRefl objects r) (hr : r < 1)
    (h1 : ∀ s ∈ ss, s.intensity = 1) :
    (∀ s' ∈ popAfter objects k ss, s'.intensity = r ^ k) ∧
    (∀ s' ∈ popAfter objects (k + 1) ss, s'.intensity < r ^ k) := by
  have hk : ∀ j, ∀ s' ∈ popAfter objects j ss, s'.intensity = r ^ j := by
    intro j s' hs'
    have := popAfter_intensity objects r hall j 1 ss h1 s' hs'
    rwa [one_mul] at this
  refine ⟨hk k, ?_⟩
  intro s' hs'
  rw [popAfter_succ_eq] at hs'
  obtain ⟨hint, hth⟩ := stepSounds_intensity objects r (r ^ k) hall
    (popAfter objects k ss) (hk k) s' hs'
  have hpos : 0 < r ^ k * r := lt_of_lt_of_le threshold_pos (hint ▸ hth)
  have hrk : 0 < r ^ k := by
    cases k with
    | zero => norm_num
    | succ j =>
      obtain ⟨s, hs, _⟩ := mem_stepSounds objects _ s' hs'
      rw [popAfter_succ_eq] at hs
      obtain ⟨hint', hth'⟩ := stepSounds_intensity objects r (r ^ j) hall
        (popAfter objects j ss) (hk j) s hs
      have h' : 0 < r ^ j * r := lt_of_lt_of_le threshold_pos (hint' ▸ hth')
      calc (0 : ℝ) < r ^ j * r := h'
      _ = r ^ (j + 1) := by ring
  rw [hint]
  calc r ^ k * r < r ^ k * 1 := by
        have hrpos : 0 < r := by
          rcases mul_pos_iff.mp hpos with ⟨_, h⟩ | ⟨h, _⟩
          · exact h
          · exact absurd hrk (not_lt.mpr (le_of_lt h))
        exact mul_lt_mul_of_pos_left hr hrk
  _ = r ^ k := mul_one _

theorem c7_hall : allRefl c2ObjsW (1 / 2) := by
  intro g ρ h
  simp only [c2ObjsW, List.mem_singleton] at h
  injection h

theorem c7_h1 : ∀ s ∈ [c2SndW], s.intensity = 1 := by
  intro s hs
  rcases List.mem_singleton.mp hs with rfl
  rfl

theorem c7_picks_eval :
    candidatePicks c2ObjsW c2SndW =
      [.objectHit ⟨2, ⟨2, 0, 0⟩, ⟨-1, 0, 0⟩⟩ (1 / 2)] := by
  have hoi : objectInteractions c2SndW
      (.reflector [⟨⟨2, 1, 0⟩, ⟨2, -1, 1⟩, ⟨2, -1, -1⟩⟩] (1 / 2)) =
      [.objectHit ⟨2, ⟨2, 0, 0⟩, ⟨-1, 0, 0⟩⟩ (1 / 2)] := by
    rw [objectInteractions]
    simp [c2SndW, model_matches_triangle_test]
  have hpop : perObjectPick c2SndW
      (.reflector [⟨⟨2, 1, 0⟩, ⟨2, -1, 1⟩, ⟨2, -1, -1⟩⟩] (1 / 2)) =
      some (.objectHit ⟨2, ⟨2, 0, 0⟩, ⟨-1, 0, 0⟩⟩ (1 / 2)) := by
    rw [perObjectPick, hoi, minByFirst, pickMinFrom]
  rw [c2ObjsW, candidatePicks, hpop, candidatePicks]

theorem c7_sel_eval :
    selectedInteraction c2ObjsW c2SndW =
      some (.objectHit ⟨2, ⟨2, 0, 0⟩, ⟨-1, 0, 0⟩⟩ (1 / 2)) := by
  rw [selectedInteraction, c7_picks_eval, dedupKeepFirst, List.filter_nil,
    dedupKeepFirst]
  norm_num [List.filter_cons, List.filter_nil, interactionTime, interactionHit,
    c2SndW, minByFirst, pickMinFrom]

theorem c7_outcome_eval :
    soundOutcome c2ObjsW c2SndW =
      .reflected ⟨reflectRay c2SndW.ray ⟨2, ⟨2, 0, 0⟩, ⟨-1, 0, 0⟩⟩,
        c2SndW.intensity * (1 / 2)⟩ := by
  rw [soundOutcome, c7_sel_eval]
  show (if THRESHOLD ≤ c2SndW.intensity * (1 / 2) then
      Outcome.reflected ⟨reflectRay c2SndW.ray ⟨2, ⟨2, 0, 0⟩, ⟨-1, 0, 0⟩⟩,
        c2SndW.intensity * (1 / 2)⟩
    else Outcome.decayed) = _
  rw [if_pos (by norm_num [THRESHOLD, c2SndW])]

/-- The C7 witness input is not vacuous: the population `[c2SndW]` is the one
sound aimed at the reflector's triangle, and it survives the first round,
reflected at intensity `1 * (1/2)`. -/
theorem c7_round_survivor :
    popAfter c2ObjsW 0 [c2SndW] = [c2SndW] ∧
      popAfter c2ObjsW (0 + 1) [c2SndW] =
        [⟨reflectRay c2SndW.ray ⟨2, ⟨2, 0, 0⟩, ⟨-1, 0, 0⟩⟩,
          c2SndW.intensity * (1 / 2)⟩] := by
  constructor
  · rfl
  · show stepSounds c2ObjsW [c2SndW] = _
    rw [stepSounds, c7_outcome_eval]
    rfl

/-- Witness for C7 at the one-reflector scene `c2ObjsW` (reflectance `1/2`)
and the single-sound population `[c2SndW]`, `k = 0`: that sound has intensity
`(1/2)^0 = 1` before the round and, having survived the round as
`c7_round_survivor` shows, intensity strictly below `1` after it. -/
theorem intensity_decay_geometric_witness :
    (∀ s' ∈ popAfter c2ObjsW 0 [c2SndW], s'.intensity = (1 / 2 : ℝ) ^ 0) ∧
    (∀ s' ∈ popAfter c2ObjsW (0 + 1) [c2SndW],
      s'.intensity < (1 / 2 : ℝ) ^ 0) :=
  intensity_decay_geometric c2ObjsW (1 / 2) [c2SndW] 0 c7_hall
    one_half_lt_one c7_h1

theorem emitAll_intensity (es : List Emitter) (rng : ℕ → ℝ) (start : ℕ) :
    ∀ s ∈ emitAll es rng start, s.intensity = 1 := by
  induction es generalizing start with
  | nil => intro s hs; exact absurd hs (List.not_mem_nil s)
  | cons e es ih =>
    intro s hs
    rw [emitAll] at hs
    rcases List.mem_append.mp hs with hs | hs
    · rw [emitFrom] at hs
      obtain ⟨j, _, rfl⟩ := List.mem_map.mp hs
      rfl
    · exact ih _ s hs

theorem boxScene_allRefl (n : ℕ) : allRefl (boxScene n).objects (4 / 5) := by
  intro g ρ h
  simp only [boxScene, List.mem_cons, List.not_mem_nil, or_false] at h
  rcases h with h | h | h | h | h | h | h
  · injection h
  · injection h
  · injection h
  · injection h
  · injection h
  · injection h
  · exact absurd h (by simp)

/-- C3: the outer simulation loop exits as soon as the population is empty
(and only then — a completed run means the population became empty within the
given number of rounds and stayed so); in the closed box of six reflective
walls of reflectance `0.8` around one emitter and one receiver sphere, every
emitted ray is captured or decays within 125 rounds — each surviving round
multiplies an intensity by exactly `0.8`, and `0.8^125` is below the
audibility cutoff — so `simulate` terminates and returns. -/
theorem simulation_loop_terminates :
    (∀ (objects : List Object) (fuel : ℕ) (acc : List (Hit × ℝ)),
      runRounds objects fuel [] acc = some acc) ∧
    (∀ (objects : List Object) (fuel : ℕ) (ss : List Sound)
      (acc res : List (Hit × ℝ)), runRounds objects fuel ss acc = some res →
      popAfter objects fuel ss = []) ∧
    (∀ (n : ℕ) (rng : ℕ → ℝ), ∃ res, simulate 125 (boxScene n) rng = some res) := by
  refine ⟨runRounds_empty_pop, ?_, ?_⟩
  · intro objects fuel
    induction fuel with
    | zero =>
      intro ss acc res h
      cases ss with
      | nil => rfl
      | cons s ss =>
        rw [runRounds] at h
        exact Option.noConfusion h
    | succ fuel ih =>
      intro ss acc res h
      cases ss with
      | nil => exact popAfter_nil objects (fuel + 1)
      | cons s ss =>
        rw [runRounds] at h
        exact ih _ _ _ h
  · intro n rng
    obtain ⟨res, hres⟩ := runRounds_terminates (boxScene n).objects (4 / 5)
      (boxScene_allRefl n) 124 1 (emitAll (boxScene n).emitters rng 0) []
      (emitAll_intensity _ _ _) (by norm_num [THRESHOLD])
    refine ⟨res, ?_⟩
    rw [simulate, show (125 : ℕ) = 124 + 1 by norm_num]
    exact hres
